import Mathlib

/-!
Shallow embedding of the `excel-datamashup` DataMashup container core
(`src/datamashup.ts`, `src/zip.ts`, `src/text.ts`) and verification of the
spec's claims about it.

Conventions:
* JavaScript byte buffers (`Buffer`, `Uint8Array`, `number[]`) are `List Nat`
  whose elements are byte values.
* JavaScript strings are Lean `String`s.
* A thrown JavaScript exception (rejected promise of the `async` function) is
  an `Except.error`; an ordinary return value is `Except.ok`.
* The external collaborators declared out of scope by the spec (the base64
  codec, the ZIP codec) are abstract function parameters collected in a
  `Codecs` structure; concrete instantiations used for evaluation are given
  below (`jsBase64Dec` models `base64-js`' `toByteArray`, and a small demo
  binary-text/archive codec pair instantiates the abstract interface in
  witnesses).
-/

namespace DataMashup

/-! ## Basic list and character utilities -/

/-- Byte values of a buffer are plain naturals. -/
abbrev Bytes := List Nat

/-- `isPrefixL pat l` is true when `pat` is a prefix of `l` (decidable,
executable; used to model substring search of JS `String.match`/`includes`). -/
def isPrefixL : List Char → List Char → Bool
  | [], _ => true
  | _ :: _, [] => false
  | p :: ps, c :: cs => p = c && isPrefixL ps cs

/-- Find the first occurrence of `pat` inside `l`: returns the part strictly
before the match and the part strictly after it. -/
def findSplit (pat : List Char) : List Char → Option (List Char × List Char)
  | [] => if isPrefixL pat [] then some ([], []) else none
  | c :: rest =>
    if isPrefixL pat (c :: rest) then some ([], (c :: rest).drop pat.length)
    else (findSplit pat rest).map (fun p => (c :: p.1, p.2))

/-- The whitespace characters trimmed by JavaScript `String.prototype.trim`
(the common set: space, tab, newline, carriage return, vertical tab, form
feed, NBSP, BOM, line/paragraph separator). -/
def isJsWhitespace (c : Char) : Bool :=
  c = ' ' || c = '\t' || c = '\n' || c = '\r' || c = '\x0B' || c = '\x0C' ||
  c = ' ' || c = '﻿' || c = ' ' || c = ' '

/-- Model of JavaScript `String.prototype.trim` on a character list. -/
def trimL (l : List Char) : List Char :=
  ((l.dropWhile isJsWhitespace).reverse.dropWhile isJsWhitespace).reverse

/-- Model of JavaScript `String.prototype.trim`. -/
def trimStr (s : String) : String := ⟨trimL s.data⟩

/-- Model of JavaScript `String.prototype.includes` (substring search). -/
def strIncludes (s sub : String) : Bool := (findSplit sub.data s.data).isSome

/-- Model of JavaScript `String.prototype.endsWith`. -/
def strEndsWith (s suf : String) : Bool := isPrefixL suf.data.reverse s.data.reverse

/-! ## JS-level primitives: integers, UTF-8, UTF-16 lengths -/

/-- Little-endian 4-byte encoding of a natural (as `Buffer.writeUInt32LE`
stores a 32-bit value). -/
def u32le (n : Nat) : Bytes :=
  [n % 256, n / 256 % 256, n / 65536 % 256, n / 16777216 % 256]

/-- A length-prefixed field as produced by `appendBufferLenLE`: the 4-byte
little-endian byte length immediately followed by the content. -/
def lenPrefixed (b : Bytes) : Bytes := u32le b.length ++ b

/-- Number of UTF-16 code units a character occupies, which is what the
JavaScript `String.length` property counts. -/
def utf16Width (n : Nat) : Nat := if n < 65536 then 1 else 2

/-- Model of the JavaScript `String.length` property (UTF-16 code units). -/
def jsStrLength (s : String) : Nat := (s.data.map (fun c => utf16Width c.toNat)).sum

/-- UTF-8 encoding of a single code point. -/
def utf8EncodeChar (n : Nat) : Bytes :=
  if n < 128 then [n]
  else if n < 2048 then [192 + n / 64, 128 + n % 64]
  else if n < 65536 then [224 + n / 4096, 128 + n / 64 % 64, 128 + n % 64]
  else [240 + n / 262144, 128 + n / 4096 % 64, 128 + n / 64 % 64, 128 + n % 64]

/-- UTF-8 encoding of a string, as performed by `TextEncoder` /
`Buffer.from(string)` in the source. -/
def utf8Encode (s : String) : Bytes := (s.data.map (fun c => utf8EncodeChar c.toNat)).flatten

/-- Byte length of a string in UTF-8. -/
def utf8ByteLength (s : String) : Nat := (utf8Encode s).length

/-- Whether a byte is a UTF-8 continuation byte. -/
def isCont (b : Nat) : Bool := 128 ≤ b && b < 192

/-- The U+FFFD replacement character emitted by `TextDecoder` for malformed
input. -/
def replChar : Char := Char.ofNat 65533

/-- UTF-8 decoding with replacement-character recovery, as performed by
`TextDecoder('utf-8')` (non-fatal mode) in the source. The fuel argument is
initialized to the buffer length; at least one byte is consumed per step, so
it never runs out on a real run. -/
def utf8DecodeAux : Nat → Bytes → List Char
  | 0, _ => []
  | _ + 1, [] => []
  | fuel + 1, b :: rest =>
    if b < 128 then Char.ofNat b :: utf8DecodeAux fuel rest
    else if 194 ≤ b && b ≤ 223 then
      match rest with
      | b1 :: rest' =>
        if isCont b1 then Char.ofNat ((b - 192) * 64 + (b1 - 128)) :: utf8DecodeAux fuel rest'
        else replChar :: utf8DecodeAux fuel rest
      | [] => [replChar]
    else if 224 ≤ b && b ≤ 239 then
      match rest with
      | b1 :: b2 :: rest' =>
        if isCont b1 && isCont b2 then
          if (b - 224) * 4096 + (b1 - 128) * 64 + (b2 - 128) < 2048 ||
              (55296 ≤ (b - 224) * 4096 + (b1 - 128) * 64 + (b2 - 128) &&
                (b - 224) * 4096 + (b1 - 128) * 64 + (b2 - 128) ≤ 57343) then
            replChar :: utf8DecodeAux fuel rest'
          else Char.ofNat ((b - 224) * 4096 + (b1 - 128) * 64 + (b2 - 128)) :: utf8DecodeAux fuel rest'
        else replChar :: utf8DecodeAux fuel rest
      | _ => [replChar]
    else if 240 ≤ b && b ≤ 244 then
      match rest with
      | b1 :: b2 :: b3 :: rest' =>
        if isCont b1 && isCont b2 && isCont b3 then
          if (b - 240) * 262144 + (b1 - 128) * 4096 + (b2 - 128) * 64 + (b3 - 128) < 65536 ||
              1114111 < (b - 240) * 262144 + (b1 - 128) * 4096 + (b2 - 128) * 64 + (b3 - 128) then
            replChar :: utf8DecodeAux fuel rest'
          else
            Char.ofNat ((b - 240) * 262144 + (b1 - 128) * 4096 + (b2 - 128) * 64 + (b3 - 128)) ::
              utf8DecodeAux fuel rest'
        else replChar :: utf8DecodeAux fuel rest
      | _ => [replChar]
    else replChar :: utf8DecodeAux fuel rest

/-- UTF-8 decoding to a string (model of `Decoder.decode` in `text.ts`). -/
def utf8Decode (b : Bytes) : String := ⟨utf8DecodeAux b.length b⟩

/-! ## Data model (`types/datamashup.d.ts`, `types/zip.d.ts`) -/

/-- A thrown JavaScript exception (the promise returned by the `async`
function rejects with it). -/
inductive JsError where
  | thrown (msg : String)
deriving DecidableEq, Repr

/-- Decidable equality on `Except`, so that concrete runs of the pipeline
can be checked by `decide`. -/
instance {ε α : Type} [DecidableEq ε] [DecidableEq α] : DecidableEq (Except ε α) := fun x y =>
  match x, y with
  | .ok a, .ok b => decidable_of_iff (a = b) (by simp)
  | .error a, .error b => decidable_of_iff (a = b) (by simp)
  | .ok _, .error _ => isFalse (by simp)
  | .error _, .ok _ => isFalse (by simp)

/-- The `ParseError` union type of `types/datamashup.d.ts`. -/
inductive ParseError where
  | dataMashupNotFound
  | base64DecodeError
  | parseRootError
deriving DecidableEq, Repr

/-- The `data` field of an `UnzippedItem`: `Buffer | string`. -/
inductive ItemData where
  | bytes (bs : Bytes)
  | text (s : String)
deriving DecidableEq, Repr

/-- The `UnzippedItem` record of `types/zip.d.ts`. -/
structure UnzippedItem where
  path : String
  type : String
  size : Nat
  data : ItemData
deriving DecidableEq, Repr

/-- The `Metadata` record of `types/datamashup.d.ts`. -/
structure Metadata where
  version : Nat
  metadata : String
  content : List UnzippedItem
deriving DecidableEq, Repr

/-- The data fields of the `ParseResult` record (the root container state the
closures `getFormula`/`setFormula`/`resetPermissions`/`save` act on). -/
structure Container where
  version : Nat
  packageParts : List UnzippedItem
  permissions : String
  metadata : Metadata
  permissionBindings : Bytes
deriving DecidableEq, Repr

/-- A successful `ParseXml` result is a container; a `ParseError` is returned
as an ordinary value. -/
inductive ParseOutcome where
  | err (e : ParseError)
  | ok (c : Container)
deriving DecidableEq, Repr

/-- The record produced by the `ParserRoot` binary layout
(`datamashup.ts:15-28`). -/
structure RootData where
  version : Nat
  packageParts : Bytes
  permissions : Bytes
  metadata : Bytes
  permissionBindings : Bytes
deriving DecidableEq, Repr

/-- The record produced by the `ParserMetadata` binary layout
(`datamashup.ts:30-36`). -/
structure MetaRaw where
  version : Nat
  metadataXml : Bytes
  content : Bytes
deriving DecidableEq, Repr

/-- The external collaborators the spec declares out of scope and specifies
only at their interface: the base64 codec (`base64-js`) and the ZIP archive
codec (`fflate`, wrapped by `zip.ts`). `unpack` is total because
`unzipChunks` resolves an empty item list on any unzip failure, and `pack`
is total because `zipItems` resolves an empty buffer on any zip failure. -/
structure Codecs where
  b64enc : Bytes → String
  b64dec : String → Except JsError Bytes
  pack : List (String × Bytes) → Bytes
  unpack : Bytes → List (String × Bytes)

/-! ## Binary layout parsers (`binary-parser` generated readers)

`binary-parser` compiles the declared layout to `DataView` reads; a read
past the end of the buffer throws a `RangeError`, modeled as `Except.error`.
-/

/-- The `RangeError` message a `DataView` raises on an out-of-bounds read. -/
def rangeError : JsError := .thrown "Offset is outside the bounds of the DataView"

/-- Read a 4-byte little-endian unsigned integer (`uint32le`). -/
def readU32 : Bytes → Except JsError (Nat × Bytes)
  | b0 :: b1 :: b2 :: b3 :: rest =>
    .ok (b0 % 256 + 256 * (b1 % 256) + 65536 * (b2 % 256) + 16777216 * (b3 % 256), rest)
  | _ => .error rangeError

/-- Read `n` raw bytes (`array` of `uint8` with a declared `length`). -/
def readBytesN (n : Nat) (b : Bytes) : Except JsError (Bytes × Bytes) :=
  if n ≤ b.length then .ok (b.take n, b.drop n) else .error rangeError

/-- `ParserRoot.parse` (`datamashup.ts:15-28`): version, then four
length-prefixed byte fields, all little-endian. -/
def parserRoot (b : Bytes) : Except JsError RootData := do
  let (version, r) ← readU32 b
  let (ppLen, r) ← readU32 r
  let (pp, r) ← readBytesN ppLen r
  let (permLen, r) ← readU32 r
  let (perm, r) ← readBytesN permLen r
  let (mdLen, r) ← readU32 r
  let (md, r) ← readBytesN mdLen r
  let (pbLen, r) ← readU32 r
  let (pb, _) ← readBytesN pbLen r
  pure ⟨version, pp, perm, md, pb⟩

/-- `ParserMetadata.parse` (`datamashup.ts:30-36`). -/
def parserMetadata (b : Bytes) : Except JsError MetaRaw := do
  let (version, r) ← readU32 b
  let (xmlLen, r) ← readU32 r
  let (xml, r) ← readBytesN xmlLen r
  let (contentLen, r) ← readU32 r
  let (content, _) ← readBytesN contentLen r
  pure ⟨version, xml, content⟩

/-! ## Tag extraction (`DataMashupRegexp`, `ExtractDataMashupBinary`) -/

/-- The characters of the opening tag marker in `DataMashupRegexp`. -/
def tagOpenChars : List Char := "<DataMashup".data

/-- The characters of the closing tag in `DataMashupRegexp`. -/
def tagCloseChars : List Char := "</DataMashup>".data

/-- Model of `ExtractDataMashupBinary` (`datamashup.ts:44-47`): match the
regex `<DataMashup[^>]*>(.*?)<\/DataMashup>` (with `s` flag) and trim the
captured body. The regex finds the first `<DataMashup`, skips to the first
following `>` (by `[^>]*>` nothing before it may be `>`), and the lazy
capture ends at the first following `</DataMashup>`. -/
def extractDataMashupBinary (xml : String) : Option String :=
  match findSplit tagOpenChars xml.data with
  | none => none
  | some (_, r1) =>
    match findSplit ['>'] r1 with
    | none => none
    | some (_, r2) =>
      match findSplit tagCloseChars r2 with
      | none => none
      | some (body, _) => some ⟨trimL body⟩

/-! ## ParseXml pipeline (`datamashup.ts:71-103`) -/

/-- A JavaScript `Buffer` object is never falsy, so the
`if (!binaryBuffer) return 'Base64DecodeError'` guard in `ParseXml` can
never take its then-branch. -/
def bufferFalsy (_ : Bytes) : Bool := false

/-- The object returned by `Parser.parse` is never falsy, so the
`if (!rootData) return 'ParseRootError'` guard in `ParseXml` can never take
its then-branch. -/
def parsedObjectFalsy (_ : RootData) : Bool := false

/-- `path.endsWith('.xml') || path.endsWith('.m')`
(`ConvertUnzippedItemXmlToString`, `datamashup.ts:62-69`). -/
def isXmlPath (p : String) : Bool := strEndsWith p ".xml" || strEndsWith p ".m"

/-- Model of `ConvertUnzippedItemXmlToString`: decode the payload of `.xml`
and `.m` entries from bytes to UTF-8 text (size untouched). -/
def convertItem (i : UnzippedItem) : UnzippedItem :=
  match i.data with
  | .bytes bs => if isXmlPath i.path then { i with data := .text (utf8Decode bs) } else i
  | .text _ => i

/-- Wrap one unpacked archive entry as `unzipChunks` does (`zip.ts:17-24`):
kind `File`, size the byte length, payload the raw bytes. -/
def mkItem (e : String × Bytes) : UnzippedItem := ⟨e.1, "File", e.2.length, .bytes e.2⟩

/-- Model of `ParseXml` (`datamashup.ts:71-103`). A thrown exception
(rejected promise) is `Except.error`; returned values are `Except.ok`. -/
def parseXml (K : Codecs) (xmlContent : String) : Except JsError ParseOutcome :=
  match extractDataMashupBinary xmlContent with
  | none => .ok (.err .dataMashupNotFound)
  | some binaryString =>
    if binaryString = "" then .ok (.err .dataMashupNotFound)
    else do
      let binaryBuffer ← K.b64dec binaryString
      if bufferFalsy binaryBuffer then pure (.err .base64DecodeError)
      else do
        let rootData ← parserRoot binaryBuffer
        if parsedObjectFalsy rootData then pure (.err .parseRootError)
        else do
          let packageParts := ((K.unpack rootData.packageParts).map mkItem).map convertItem
          let permissions := utf8Decode rootData.permissions
          let metadataData ← parserMetadata rootData.metadata
          let metadataXml := utf8Decode metadataData.metadataXml
          let metadataContentItems := (K.unpack metadataData.content).map mkItem
          pure (.ok
            { version := rootData.version
              packageParts := packageParts
              permissions := permissions
              metadata :=
                { version := metadataData.version
                  metadata := metadataXml
                  content := metadataContentItems }
              permissionBindings := rootData.permissionBindings })

/-! ## Container operations (`datamashup.ts:278-351`) -/

/-- `FormulaSectionDefault` (`datamashup.ts:40`). -/
def formulaSectionDefault : String := "Section1.m"

/-- `PermissionDefaults` (`datamashup.ts:42`). -/
def permissionDefaults : String :=
  "<?xml version=\"1.0\" encoding=\"utf-8\"?>\r\n<PermissionList xmlns:xsi=\"http://www.w3.org/2001/XMLSchema-instance\">\r\n\t<CanEvaluateFuturePackages>false</CanEvaluateFuturePackages>\r\n\t<FirewallEnabled>true</FirewallEnabled>\r\n\t<WorkbookGroupType xsi:nil=\"true\" />\r\n</PermissionList>"

/-- The predicate of `getFormulaFile`'s `find`:
`item.path.includes(FormulaSectionDefault)`. -/
def isFormulaItem (i : UnzippedItem) : Bool := strIncludes i.path formulaSectionDefault

/-- The entry `getFormulaFile` synthesizes when no formula entry exists
(`datamashup.ts:282-289`). -/
def emptyFormulaItem : UnzippedItem :=
  { path := formulaSectionDefault, type := "File", size := 0, data := .text "" }

/-- Model of `getFormulaFile` (`datamashup.ts:278-292`): find the first
entry whose path contains `Section1.m`; if none exists, push a fresh empty
entry onto `packageParts` and return it. The returned container reflects
the possible in-place push. -/
def getFormulaFile (c : Container) : UnzippedItem × Container :=
  match c.packageParts.find? isFormulaItem with
  | some i => (i, c)
  | none => (emptyFormulaItem, { c with packageParts := c.packageParts ++ [emptyFormulaItem] })

/-- Model of `getFormula` (`datamashup.ts:338-341`): returns the payload of
the formula entry (the `as string` assertion returns the payload as is). -/
def getFormula (c : Container) : ItemData × Container :=
  match getFormulaFile c with
  | (i, c') => (i.data, c')

/-- Replace the first entry satisfying `isFormulaItem` with the same entry
carrying the new size and payload (the in-place mutation of `setFormula`);
`none` when no entry matches. -/
def setFirstFormula (formula : String) : List UnzippedItem → Option (List UnzippedItem)
  | [] => none
  | i :: rest =>
    if isFormulaItem i then
      some ({ i with size := jsStrLength formula, data := .text formula } :: rest)
    else (setFirstFormula formula rest).map (fun l => i :: l)

/-- Model of `setFormula` (`datamashup.ts:343-347`): the entry returned by
`getFormulaFile` (found, or freshly pushed) gets `size = formula.length`
(JavaScript UTF-16 code-unit count) and `data = formula`. -/
def setFormula (c : Container) (formula : String) : Container :=
  match setFirstFormula formula c.packageParts with
  | some l => { c with packageParts := l }
  | none =>
    { c with packageParts := c.packageParts ++
        [{ path := formulaSectionDefault, type := "File",
           size := jsStrLength formula, data := .text formula }] }

/-- Model of `resetPermissions` (`datamashup.ts:349-351`). -/
def resetPermissions (c : Container) : Container :=
  { c with permissions := permissionDefaults }

/-! ## save (`datamashup.ts:353-386`, `zip.ts:47-67`) -/

/-- The byte payload an entry contributes to `zipItems` (`zip.ts:50-55`):
string payloads are UTF-8 encoded by `Buffer.from`, byte payloads pass
through. -/
def itemBytes (i : UnzippedItem) : Bytes :=
  match i.data with
  | .bytes bs => bs
  | .text s => utf8Encode s

/-- The `(path, bytes)` pairs handed to the archive codec by `zipItems`. -/
def itemsToEntries (items : List UnzippedItem) : List (String × Bytes) :=
  items.map (fun i => (i.path, itemBytes i))

/-- Model of `appendMetadataBufferLE`'s inner buffer (`datamashup.ts:361-372`):
metadata version, then length-prefixed metadata XML, then the length-prefixed
re-packed content archive. -/
def metaSaveBytes (K : Codecs) (m : Metadata) : Bytes :=
  u32le m.version ++ lenPrefixed (utf8Encode m.metadata) ++
    lenPrefixed (K.pack (itemsToEntries m.content))

/-- The byte buffer `save` concatenates before base64-encoding
(`datamashup.ts:374-384`): version, length-prefixed package-parts archive,
length-prefixed permissions, length-prefixed metadata buffer, length-prefixed
permission bindings. `Buffer.from(number[])` masks each element to a byte. -/
def saveBytes (K : Codecs) (c : Container) : Bytes :=
  u32le c.version ++
    lenPrefixed (K.pack (itemsToEntries c.packageParts)) ++
    lenPrefixed (utf8Encode c.permissions) ++
    lenPrefixed (metaSaveBytes K c.metadata) ++
    lenPrefixed (c.permissionBindings.map (· % 256))

/-- Model of `save` (`datamashup.ts:374-386`): returns the base64 text of
`saveBytes` and leaves the container untouched (the function only reads
`result`'s fields into locally allocated buffers). -/
def saveState (K : Codecs) (c : Container) : String × Container :=
  (K.b64enc (saveBytes K c), c)

/-! ## Concrete model of `base64-js`' `toByteArray`

`ConvertBinaryToBuffer` (`datamashup.ts:58-60`) calls
`base64.toByteArray(binaryString)`. The library throws an `Error` when the
input length is not a multiple of 4; for inputs of valid length, characters
outside its lookup table contribute 0 to the shift arithmetic (JavaScript
`undefined` coerces to 0), so such inputs silently decode to garbage bytes
rather than failing. -/

/-- The `revLookup` table of `base64-js` (standard alphabet plus the
URL-safe `-`/`_`); absent characters behave as 0. -/
def b64RevLookup (c : Char) : Nat :=
  if 'A' ≤ c ∧ c ≤ 'Z' then c.toNat - 65
  else if 'a' ≤ c ∧ c ≤ 'z' then c.toNat - 97 + 26
  else if '0' ≤ c ∧ c ≤ '9' then c.toNat - 48 + 52
  else if c = '+' then 62
  else if c = '/' then 63
  else if c = '-' then 62
  else if c = '_' then 63
  else 0

/-- The main 4-character-group loop of `toByteArray`: each group yields a
24-bit value emitted as three bytes. -/
def b64Chunks4 : List Char → Bytes
  | a :: b :: c :: d :: rest =>
    (b64RevLookup a * 262144 + b64RevLookup b * 4096 + b64RevLookup c * 64 + b64RevLookup d) / 65536 % 256 ::
    (b64RevLookup a * 262144 + b64RevLookup b * 4096 + b64RevLookup c * 64 + b64RevLookup d) / 256 % 256 ::
    (b64RevLookup a * 262144 + b64RevLookup b * 4096 + b64RevLookup c * 64 + b64RevLookup d) % 256 ::
    b64Chunks4 rest
  | _ => []

/-- Model of `base64-js`' `toByteArray` (v1.5.1): `getLens` throws when the
length is not a multiple of 4; otherwise the placeholder count is derived
from the position of the first `=` and the trailing group is decoded into
one or two bytes. -/
def jsToByteArray (s : String) : Except JsError Bytes :=
  let l := s.data
  let len := l.length
  if len % 4 ≠ 0 then .error (.thrown "Invalid string. Length must be a multiple of 4")
  else
    let validLen := match l.findIdx? (· = '=') with | some i => i | none => len
    let placeHolders := if validLen = len then 0 else 4 - validLen % 4
    let mainLen := if 0 < placeHolders then validLen - 4 else validLen
    let consumed := 4 * ((mainLen + 3) / 4)
    let tailChars := l.drop consumed
    let tailBytes :=
      if placeHolders = 2 then
        match tailChars with
        | c0 :: c1 :: _ => [(b64RevLookup c0 * 4 + b64RevLookup c1 / 16) % 256]
        | _ => []
      else if placeHolders = 1 then
        match tailChars with
        | c0 :: c1 :: c2 :: _ =>
          [(b64RevLookup c0 * 1024 + b64RevLookup c1 * 16 + b64RevLookup c2 / 4) / 256 % 256,
           (b64RevLookup c0 * 1024 + b64RevLookup c1 * 16 + b64RevLookup c2 / 4) % 256]
        | _ => []
      else []
    .ok (b64Chunks4 (l.take consumed) ++ tailBytes)

/-! ## Demo instantiation of the abstract codec interface

The spec declares the base64 and ZIP codecs external collaborators specified
only at their interface. The following small executable codecs instantiate a
`Codecs` value so that the interface-conditional theorems can be evaluated on
concrete inputs: a nibble-to-letter binary/text codec (alphabet `A`-`P`, so
no `<` and no whitespace ever appears in its output) and a length-prefixed
archive codec. -/

/-- Demo binary-to-text encoder: each byte becomes two letters from `A`-`P`. -/
def demoB64Enc (b : Bytes) : String :=
  ⟨(b.map (fun n => [Char.ofNat (65 + n / 16 % 16), Char.ofNat (65 + n % 16)])).flatten⟩

/-- Decoder loop of the demo binary-to-text codec. -/
def demoB64DecAux : List Char → Except JsError Bytes
  | [] => .ok []
  | c1 :: c2 :: rest =>
    if 65 ≤ c1.toNat ∧ c1.toNat ≤ 80 ∧ 65 ≤ c2.toNat ∧ c2.toNat ≤ 80 then
      (demoB64DecAux rest).map (fun bs => ((c1.toNat - 65) * 16 + (c2.toNat - 65)) :: bs)
    else .error (.thrown "invalid text")
  | _ => .error (.thrown "invalid text")

/-- Demo binary-to-text decoder (inverse of `demoB64Enc`). -/
def demoB64Dec (s : String) : Except JsError Bytes := demoB64DecAux s.data

/-- Demo archive pack: concatenation of length-prefixed path and payload per
entry. -/
def demoPack (entries : List (String × Bytes)) : Bytes :=
  (entries.map (fun e => lenPrefixed (utf8Encode e.1) ++ lenPrefixed e.2)).flatten

/-- Demo archive unpack loop (fuel-bounded; malformed input yields the
entries decoded so far, mirroring the recover-to-empty policy of `zip.ts`). -/
def demoUnpackAux : Nat → Bytes → List (String × Bytes)
  | 0, _ => []
  | _ + 1, [] => []
  | fuel + 1, b =>
    match readU32 b with
    | .error _ => []
    | .ok (pathLen, r) =>
      match readBytesN pathLen r with
      | .error _ => []
      | .ok (pathBytes, r) =>
        match readU32 r with
        | .error _ => []
        | .ok (dataLen, r) =>
          match readBytesN dataLen r with
          | .error _ => []
          | .ok (dataBytes, r) =>
            (utf8Decode pathBytes, dataBytes) :: demoUnpackAux fuel r

/-- Demo archive unpack (inverse of `demoPack` on its image). -/
def demoUnpack (b : Bytes) : List (String × Bytes) := demoUnpackAux b.length b

/-- The demo codec bundle used to instantiate interface-conditional
theorems on concrete inputs. -/
def demoCodecs : Codecs :=
  { b64enc := demoB64Enc, b64dec := demoB64Dec, pack := demoPack, unpack := demoUnpack }

/-- The codec bundle with the real `base64-js` decoder model, used to
evaluate `ParseXml`'s behavior on malformed and truncated inputs. -/
def jsCodecs : Codecs :=
  { b64enc := demoB64Enc, b64dec := jsToByteArray, pack := demoPack, unpack := demoUnpack }

/-! ## The default permissions constant of spec section 6 -/

/-- Modelled from the spec: the exact default permissions XML constant of
section 6 (`\r\n` line endings, tab indentation), stated separately from the
source constant `permissionDefaults` so the two can be compared. -/
def specSection6Permissions : String :=
  "<?xml version=\"1.0\" encoding=\"utf-8\"?>\r\n<PermissionList xmlns:xsi=\"http://www.w3.org/2001/XMLSchema-instance\">\r\n\t<CanEvaluateFuturePackages>false</CanEvaluateFuturePackages>\r\n\t<FirewallEnabled>true</FirewallEnabled>\r\n\t<WorkbookGroupType xsi:nil=\"true\" />\r\n</PermissionList>"

/-! ## Claim theorems -/

/-- **C8.** After every call to `resetPermissions()`, the container's
`permissions` field equals, byte for byte (including `\r\n` line endings and
tabs), the fixed default permissions XML constant given in spec section 6. -/
theorem claim_c8_reset_permissions_exact (c : Container) :
    (resetPermissions c).permissions = specSection6Permissions := rfl

/-- **C9.** `setFormula(t)` does not change `permissions`, `version`,
`metadata`, or `permissionBindings`; resetting permissions happens only
through the separate explicit `resetPermissions()` call. -/
theorem claim_c9_setFormula_frame (c : Container) (t : String) :
    (setFormula c t).permissions = c.permissions ∧
    (setFormula c t).version = c.version ∧
    (setFormula c t).metadata = c.metadata ∧
    (setFormula c t).permissionBindings = c.permissionBindings := by
  unfold setFormula
  cases setFirstFormula t c.packageParts <;> simp

/-- **C7.** For every container state, calling `save()` twice in a row with
no intervening mutation returns identical base64 strings both times. `save`
reads the container fields into locally allocated buffers and leaves the
container unchanged, so the second call runs on the same state and produces
the same string (the archive codec is the deterministic pack function the
spec specifies at its interface). -/
theorem claim_c7_idempotent_save (K : Codecs) (c : Container) :
    (saveState K (saveState K c).2).1 = (saveState K c).1 ∧ (saveState K c).2 = c :=
  ⟨rfl, rfl⟩

/-! ## Formula entry helper lemmas -/

/-- A record update of size and payload leaves the formula predicate (which
only reads the path) unchanged. -/
theorem isFormulaItem_update (i : UnzippedItem) (n : Nat) (d : ItemData) :
    isFormulaItem { i with size := n, data := d } = isFormulaItem i := rfl

/-- `setFirstFormula` returns `none` exactly when no entry matches. -/
theorem setFirstFormula_eq_none (t : String) (l : List UnzippedItem) :
    setFirstFormula t l = none ↔ ∀ i ∈ l, isFormulaItem i = false := by
  induction l with
  | nil => simp [setFirstFormula]
  | cons a rest ih =>
    by_cases ha : isFormulaItem a
    · simp [setFirstFormula, ha]
    · simp only [setFirstFormula]
      rw [if_neg ha, Option.map_eq_none', ih]
      simp only [List.mem_cons]
      constructor
      · intro h i hi
        rcases hi with rfl | hi
        · simpa using ha
        · exact h i hi
      · intro h i hi
        exact h i (Or.inr hi)

/-- After a successful in-place `setFirstFormula`, the first matching entry
of the result carries the new size and payload. -/
theorem find?_setFirstFormula (t : String) (l l' : List UnzippedItem)
    (h : setFirstFormula t l = some l') :
    ∃ i, l'.find? isFormulaItem = some i ∧ i.size = jsStrLength t ∧ i.data = .text t := by
  induction l generalizing l' with
  | nil => simp [setFirstFormula] at h
  | cons a rest ih =>
    by_cases ha : isFormulaItem a
    · simp only [setFirstFormula] at h
      rw [if_pos ha, Option.some.injEq] at h
      subst h
      refine ⟨{ a with size := jsStrLength t, data := .text t }, ?_, rfl, rfl⟩
      simp [List.find?, isFormulaItem_update, ha]
    · simp only [setFirstFormula] at h
      rw [if_neg ha, Option.map_eq_some'] at h
      obtain ⟨r', hr', rfl⟩ := h
      obtain ⟨i, hi, hsize, hdata⟩ := ih r' hr'
      refine ⟨i, ?_, hsize, hdata⟩
      simp [List.find?, ha, hi]

/-- `find?` skips a block of entries on which the predicate is false. -/
theorem find?_append_none {α : Type} (p : α → Bool) (l₁ l₂ : List α)
    (h : ∀ i ∈ l₁, p i = false) :
    (l₁ ++ l₂).find? p = l₂.find? p := by
  induction l₁ with
  | nil => rfl
  | cons a rest ih =>
    have ha := h a (by simp)
    simp only [List.cons_append, List.find?, ha]
    exact ih (fun i hi => h i (by simp [hi]))

/-- After `setFormula` (whether it mutated an existing entry or pushed a new
one), the first formula entry of `packageParts` carries the new size and
payload. -/
theorem find?_setFormula (c : Container) (t : String) :
    ∃ i, (setFormula c t).packageParts.find? isFormulaItem = some i ∧
      i.size = jsStrLength t ∧ i.data = .text t := by
  unfold setFormula
  cases h : setFirstFormula t c.packageParts with
  | some l' => simpa using find?_setFirstFormula t c.packageParts l' h
  | none =>
    have hall := (setFirstFormula_eq_none t c.packageParts).mp h
    have hform : isFormulaItem
        { emptyFormulaItem with size := jsStrLength t, data := ItemData.text t } = true :=
      (isFormulaItem_update emptyFormulaItem (jsStrLength t) (ItemData.text t)).trans (by decide)
    refine ⟨{ emptyFormulaItem with size := jsStrLength t, data := ItemData.text t },
      ?_, rfl, rfl⟩
    show List.find? isFormulaItem (c.packageParts ++
      [{ emptyFormulaItem with size := jsStrLength t, data := ItemData.text t }]) = _
    rw [find?_append_none _ _ _ hall]
    simp [List.find?, hform]

/-! ## Claims C4, C5, C6 -/

/-- A fixed small container used to evaluate claims on concrete inputs: one
non-formula entry, so `packageParts` contains no path containing
`Section1.m`. -/
def exampleContainer : Container :=
  { version := 0
    packageParts := [⟨"Config/Package.xml", "File", 0, .bytes [60, 47, 62]⟩]
    permissions := ""
    metadata := { version := 0, metadata := "", content := [] }
    permissionBindings := [] }

/-- **C4, counterexample.** The claim states that the size stored by
`setFormula(t)` equals the UTF-8 byte length of `t`. It fails for
`t = "é"`: `setFormula` stores `formula.length`, the UTF-16 code-unit count
(1), while the UTF-8 byte length is 2. -/
theorem claim_c4_counterexample :
    ((setFormula exampleContainer "é").packageParts.find? isFormulaItem).map
        UnzippedItem.size ≠ some (utf8ByteLength "é") := by decide

/-- Characters below U+0080 occupy one UTF-16 code unit and one UTF-8 byte,
so on ASCII strings the two length notions agree. -/
theorem ascii_utf16_eq_utf8 (l : List Char) (h : ∀ ch ∈ l, ch.toNat < 128) :
    (l.map (fun c => utf16Width c.toNat)).sum =
      ((l.map (fun c => utf8EncodeChar c.toNat)).flatten).length := by
  induction l with
  | nil => rfl
  | cons a rest ih =>
    have ha := h a (by simp)
    have hrest := ih (fun ch hch => h ch (by simp [hch]))
    simp only [List.map_cons, List.flatten_cons, List.sum_cons, List.length_append]
    rw [hrest]
    have h16 : utf16Width a.toNat = 1 := by
      simp only [utf16Width]
      rw [if_pos (by omega)]
    have h8 : utf8EncodeChar a.toNat = [a.toNat] := by
      simp only [utf8EncodeChar]
      rw [if_pos ha]
    simp [h16, h8]

/-- **C4, amended.** After `setFormula(t)` the formula entry's `size` equals
the UTF-16 code-unit count of `t` (JavaScript `t.length`), and its payload is
`t`; this agrees with the UTF-8 byte length exactly when `t` is ASCII. -/
theorem claim_c4_amended (c : Container) (t : String) :
    (∃ i, (setFormula c t).packageParts.find? isFormulaItem = some i ∧
      i.size = jsStrLength t ∧ i.data = .text t) ∧
    ((∀ ch ∈ t.data, ch.toNat < 128) → jsStrLength t = utf8ByteLength t) := by
  refine ⟨find?_setFormula c t, fun h => ?_⟩
  unfold jsStrLength utf8ByteLength utf8Encode
  exact ascii_utf16_eq_utf8 t.data h

/-- **C4, witness.** The amended claim evaluated at the example container and
the ASCII formula text `"abc"`. -/
theorem claim_c4_witness :
    ∃ i, (setFormula exampleContainer "abc").packageParts.find? isFormulaItem = some i ∧
      i.size = jsStrLength "abc" ∧ i.data = .text "abc" ∧
      jsStrLength "abc" = utf8ByteLength "abc" := by
  obtain ⟨h1, h2⟩ := claim_c4_amended exampleContainer "abc"
  obtain ⟨i, hi1, hi2, hi3⟩ := h1
  exact ⟨i, hi1, hi2, hi3, h2 (by decide)⟩

/-- **C5, counterexample.** The claim states that on a container with no
`Section1.m` entry, `getFormula()` leaves `packageParts` unchanged. It fails:
`getFormulaFile` pushes a synthesized empty entry even for the read. -/
theorem claim_c5_counterexample :
    (getFormula exampleContainer).2.packageParts ≠ exampleContainer.packageParts := by decide

/-- **C5, amended.** On a container whose `packageParts` contains no entry
with `Section1.m` in its path, `getFormula()` returns the empty string and
synthesizes a new empty formula entry, appending it to `packageParts`. -/
theorem claim_c5_amended (c : Container)
    (h : ∀ i ∈ c.packageParts, isFormulaItem i = false) :
    getFormula c =
      (.text "", { c with packageParts := c.packageParts ++ [emptyFormulaItem] }) := by
  unfold getFormula getFormulaFile
  have hnone : c.packageParts.find? isFormulaItem = none := by
    rw [List.find?_eq_none]
    intro i hi
    simp [h i hi]
  simp [hnone, emptyFormulaItem]

/-- **C5, witness.** The amended claim evaluated at the example container. -/
theorem claim_c5_witness :
    getFormula exampleContainer =
      (.text "", { exampleContainer with
        packageParts := exampleContainer.packageParts ++ [emptyFormulaItem] }) :=
  claim_c5_amended exampleContainer (by decide)

/-- **C6.** `setFormula(X)` followed by `getFormula()` returns exactly `X`;
and when `packageParts` contained no entry whose path contains `Section1.m`,
`setFormula(X)` appends a new entry at path exactly `Section1.m` whose
payload is `X`. -/
theorem claim_c6_set_then_get (c : Container) (X : String) :
    (getFormula (setFormula c X)).1 = .text X ∧
    ((∀ i ∈ c.packageParts, isFormulaItem i = false) →
      setFormula c X = { c with packageParts := c.packageParts ++
        [{ path := "Section1.m", type := "File",
           size := jsStrLength X, data := .text X }] }) := by
  constructor
  · obtain ⟨i, hfind, _, hdata⟩ := find?_setFormula c X
    unfold getFormula getFormulaFile
    simp [hfind, hdata]
  · intro h
    have hnone : setFirstFormula X c.packageParts = none :=
      (setFirstFormula_eq_none X c.packageParts).mpr h
    unfold setFormula
    simp [hnone, formulaSectionDefault]

/-- **C6, witness.** The claim evaluated at the example container (which has
no formula entry) and the formula text `"Y"`. -/
theorem claim_c6_witness :
    (getFormula (setFormula exampleContainer "Y")).1 = .text "Y" ∧
    setFormula exampleContainer "Y" = { exampleContainer with
      packageParts := exampleContainer.packageParts ++
        [{ path := "Section1.m", type := "File",
           size := jsStrLength "Y", data := .text "Y" }] } :=
  ⟨(claim_c6_set_then_get exampleContainer "Y").1,
   (claim_c6_set_then_get exampleContainer "Y").2 (by decide)⟩

/-! ## UTF-8 round-trip -/

/-- The code point of a `Char` is a Unicode scalar value: below the
surrogate range or above it and below 0x110000. -/
theorem char_toNat_valid (c : Char) :
    c.toNat < 55296 ∨ (57343 < c.toNat ∧ c.toNat < 1114112) := by
  rcases c.valid with h | ⟨h1, h2⟩
  · exact Or.inl (UInt32.toNat_lt_of_lt (by decide) h)
  · exact Or.inr ⟨UInt32.lt_toNat_of_lt (by decide) h1, UInt32.toNat_lt_of_lt (by decide) h2⟩

/-- Decoding the empty buffer yields nothing for any fuel. -/
theorem utf8DecodeAux_nil (fuel : Nat) : utf8DecodeAux fuel [] = [] := by
  cases fuel <;> rfl

/-- Decoding an encoded character consumes exactly that character. -/
theorem utf8DecodeAux_encode_step (c : Char) (rest : Bytes) (fuel : Nat) :
    utf8DecodeAux (fuel + 1) (utf8EncodeChar c.toNat ++ rest) = c :: utf8DecodeAux fuel rest := by
  have hv := char_toNat_valid c
  by_cases h1 : c.toNat < 128
  · have he : utf8EncodeChar c.toNat = [c.toNat] := by
      unfold utf8EncodeChar
      rw [if_pos h1]
    rw [he, List.cons_append, List.nil_append]
    cases rest with
    | nil => rw [utf8DecodeAux, if_pos h1, Char.ofNat_toNat]
    | cons r0 r' => rw [utf8DecodeAux, if_pos h1, Char.ofNat_toNat]
  · by_cases h2 : c.toNat < 2048
    · have he : utf8EncodeChar c.toNat = [192 + c.toNat / 64, 128 + c.toNat % 64] := by
        unfold utf8EncodeChar
        rw [if_neg h1, if_pos h2]
      have hb0 : ¬ (192 + c.toNat / 64 < 128) := by omega
      have hb1 : (194 ≤ 192 + c.toNat / 64 && 192 + c.toNat / 64 ≤ 223) = true := by
        simp only [Bool.and_eq_true, decide_eq_true_eq]
        omega
      have hcont : isCont (128 + c.toNat % 64) = true := by
        simp only [isCont, Bool.and_eq_true, decide_eq_true_eq]
        omega
      have harith : (192 + c.toNat / 64 - 192) * 64 + (128 + c.toNat % 64 - 128) = c.toNat := by
        omega
      rw [he, List.cons_append, List.cons_append, List.nil_append, utf8DecodeAux,
        if_neg hb0, if_pos hb1]
      simp [hcont]
      have hm : c.toNat / 64 * 64 + c.toNat % 64 = c.toNat := by omega
      rw [hm, Char.ofNat_toNat]
    · by_cases h3 : c.toNat < 65536
      · have he : utf8EncodeChar c.toNat =
            [224 + c.toNat / 4096, 128 + c.toNat / 64 % 64, 128 + c.toNat % 64] := by
          unfold utf8EncodeChar
          rw [if_neg h1, if_neg h2, if_pos h3]
        have hb0 : ¬ (224 + c.toNat / 4096 < 128) := by omega
        have hb1 : ¬ ((194 ≤ 224 + c.toNat / 4096 && 224 + c.toNat / 4096 ≤ 223) = true) := by
          simp only [Bool.and_eq_true, decide_eq_true_eq]
          omega
        have hb2 : (224 ≤ 224 + c.toNat / 4096 && 224 + c.toNat / 4096 ≤ 239) = true := by
          simp only [Bool.and_eq_true, decide_eq_true_eq]
          omega
        have hcont : (isCont (128 + c.toNat / 64 % 64) && isCont (128 + c.toNat % 64)) = true := by
          simp only [isCont, Bool.and_eq_true, decide_eq_true_eq]
          omega
        rw [he, List.cons_append, List.cons_append, List.cons_append, List.nil_append,
          utf8DecodeAux, if_neg hb0, if_neg hb1, if_pos hb2]
        simp [hcont]
        have hnot : ¬ (c.toNat / 4096 * 4096 + c.toNat / 64 % 64 * 64 + c.toNat % 64 < 2048 ∨
            55296 ≤ c.toNat / 4096 * 4096 + c.toNat / 64 % 64 * 64 + c.toNat % 64 ∧
            c.toNat / 4096 * 4096 + c.toNat / 64 % 64 * 64 + c.toNat % 64 ≤ 57343) := by omega
        rw [if_neg hnot]
        have hm : c.toNat / 4096 * 4096 + c.toNat / 64 % 64 * 64 + c.toNat % 64 = c.toNat := by
          omega
        rw [hm, Char.ofNat_toNat]
      · have he : utf8EncodeChar c.toNat =
            [240 + c.toNat / 262144, 128 + c.toNat / 4096 % 64,
             128 + c.toNat / 64 % 64, 128 + c.toNat % 64] := by
          unfold utf8EncodeChar
          rw [if_neg h1, if_neg h2, if_neg h3]
        have hb0 : ¬ (240 + c.toNat / 262144 < 128) := by omega
        have hb1 : ¬ ((194 ≤ 240 + c.toNat / 262144 && 240 + c.toNat / 262144 ≤ 223) = true) := by
          simp only [Bool.and_eq_true, decide_eq_true_eq]
          omega
        have hb2 : ¬ ((224 ≤ 240 + c.toNat / 262144 && 240 + c.toNat / 262144 ≤ 239) = true) := by
          simp only [Bool.and_eq_true, decide_eq_true_eq]
          omega
        have hb3 : (240 ≤ 240 + c.toNat / 262144 && 240 + c.toNat / 262144 ≤ 244) = true := by
          simp only [Bool.and_eq_true, decide_eq_true_eq]
          omega
        have hcont : (isCont (128 + c.toNat / 4096 % 64) && isCont (128 + c.toNat / 64 % 64) &&
            isCont (128 + c.toNat % 64)) = true := by
          simp only [isCont, Bool.and_eq_true, decide_eq_true_eq]
          omega
        rw [he, List.cons_append, List.cons_append, List.cons_append, List.cons_append,
          List.nil_append, utf8DecodeAux, if_neg hb0, if_neg hb1, if_neg hb2, if_pos hb3]
        simp [hcont]
        have hnot : ¬ (c.toNat / 262144 * 262144 + c.toNat / 4096 % 64 * 4096 +
            c.toNat / 64 % 64 * 64 + c.toNat % 64 < 65536 ∨
            1114111 < c.toNat / 262144 * 262144 + c.toNat / 4096 % 64 * 4096 +
              c.toNat / 64 % 64 * 64 + c.toNat % 64) := by omega
        rw [if_neg hnot]
        have hm : c.toNat / 262144 * 262144 + c.toNat / 4096 % 64 * 4096 +
            c.toNat / 64 % 64 * 64 + c.toNat % 64 = c.toNat := by omega
        rw [hm, Char.ofNat_toNat]

/-- Every encoded character occupies at least one byte. -/
theorem utf8EncodeChar_length_pos (n : Nat) : 1 ≤ (utf8EncodeChar n).length := by
  unfold utf8EncodeChar
  split
  · simp
  · split
    · simp
    · split <;> simp

/-- The encoded buffer has at least one byte per character. -/
theorem utf8Encode_length_ge (l : List Char) :
    l.length ≤ ((l.map (fun c => utf8EncodeChar c.toNat)).flatten).length := by
  induction l with
  | nil => simp
  | cons c rest ih =>
    simp only [List.map_cons, List.flatten_cons, List.length_append, List.length_cons]
    have := utf8EncodeChar_length_pos c.toNat
    omega

/-- Decoding an encoded character list with sufficient fuel recovers it. -/
theorem utf8DecodeAux_flatten (l : List Char) : ∀ fuel, l.length ≤ fuel →
    utf8DecodeAux fuel ((l.map (fun c => utf8EncodeChar c.toNat)).flatten) = l := by
  induction l with
  | nil =>
    intro fuel _
    simp [utf8DecodeAux_nil]
  | cons c rest ih =>
    intro fuel hf
    cases fuel with
    | zero => simp at hf
    | succ f =>
      simp only [List.map_cons, List.flatten_cons]
      rw [utf8DecodeAux_encode_step c _ f, ih f (by simp at hf; omega)]

/-- Round trip: UTF-8 decoding inverts UTF-8 encoding on every string. -/
theorem utf8_roundtrip (s : String) : utf8Decode (utf8Encode s) = s := by
  unfold utf8Decode utf8Encode
  rw [utf8DecodeAux_flatten s.data _ (utf8Encode_length_ge s.data)]

/-! ## Tag-extraction and trim lemmas -/

/-- `(a ++ b).data = a.data ++ b.data`. -/
theorem data_append (a b : String) : (a ++ b).data = a.data ++ b.data := by
  cases a
  cases b
  rfl

/-- A list is a prefix of itself followed by anything. -/
theorem isPrefixL_self_append (p l : List Char) : isPrefixL p (p ++ l) = true := by
  induction p with
  | nil => rfl
  | cons c ps ih => simp [isPrefixL, ih]

/-- When the pattern is a prefix, `findSplit` splits immediately. -/
theorem findSplit_immediate (pat l : List Char) (h : isPrefixL pat l = true) :
    findSplit pat l = some ([], l.drop pat.length) := by
  cases l with
  | nil =>
    cases pat with
    | nil => rfl
    | cons c ps => simp [isPrefixL] at h
  | cons c rest => simp [findSplit, h]

/-- `findSplit` on the pattern followed by a tail yields the tail. -/
theorem findSplit_self_append (pat l : List Char) :
    findSplit pat (pat ++ l) = some ([], l) := by
  rw [findSplit_immediate pat (pat ++ l) (isPrefixL_self_append pat l)]
  rw [List.drop_left]

/-- Unfolding equation of `findSplit` at a cons cell. -/
theorem findSplit_cons (pat : List Char) (c : Char) (rest : List Char) :
    findSplit pat (c :: rest) =
      if isPrefixL pat (c :: rest) = true then some ([], (c :: rest).drop pat.length)
      else (findSplit pat rest).map (fun p => (c :: p.1, p.2)) := rfl

/-- `findSplit` finds the first occurrence of a pattern none of whose head
characters occur in the leading segment. -/
theorem findSplit_mid (c0 : Char) (ps s t : List Char) (h : ∀ ch ∈ s, ch ≠ c0) :
    findSplit (c0 :: ps) (s ++ (c0 :: ps) ++ t) = some (s, t) := by
  induction s with
  | nil => simpa using findSplit_self_append (c0 :: ps) t
  | cons a s' ih =>
    have ha : ¬ c0 = a := fun hc => (h a (by simp)) hc.symm
    have hrec := ih (fun ch hch => h ch (by simp [hch]))
    rw [List.cons_append, List.cons_append, findSplit_cons]
    have hcond : ¬ isPrefixL (c0 :: ps) (a :: (s' ++ (c0 :: ps) ++ t)) = true := by
      simp [isPrefixL, ha]
    rw [if_neg hcond, hrec]
    rfl

/-- Strings without whitespace are unchanged by trim. -/
theorem trimL_of_no_ws (l : List Char) (h : ∀ c ∈ l, isJsWhitespace c = false) :
    trimL l = l := by
  unfold trimL
  have h1 : l.dropWhile isJsWhitespace = l := by
    cases l with
    | nil => rfl
    | cons a rest => simp [List.dropWhile, h a (by simp)]
  rw [h1]
  have h2 : l.reverse.dropWhile isJsWhitespace = l.reverse := by
    cases hr : l.reverse with
    | nil => rfl
    | cons a rest =>
      have ha : a ∈ l := by
        rw [← List.mem_reverse, hr]
        simp
      simp [List.dropWhile, h a ha]
  rw [h2, List.reverse_reverse]

/-- All-whitespace strings trim to the empty string. -/
theorem trimL_all_ws (l : List Char) (h : ∀ c ∈ l, isJsWhitespace c = true) :
    trimL l = [] := by
  unfold trimL
  have h1 : l.dropWhile isJsWhitespace = [] := by
    rw [List.dropWhile_eq_nil_iff]
    intro x hx
    simp [h x hx]
  rw [h1]
  rfl

/-- The extractor on a well-formed wrapper `<DataMashup>body</DataMashup>`
whose body contains no `<` captures exactly the trimmed body. -/
theorem extract_wrapped (s : String) (h : ∀ ch ∈ s.data, ch ≠ '<') :
    extractDataMashupBinary ("<DataMashup>" ++ s ++ "</DataMashup>") = some (trimStr s) := by
  have hdata : ("<DataMashup>" ++ s ++ "</DataMashup>").data =
      tagOpenChars ++ ('>' :: (s.data ++ tagCloseChars)) := by
    rw [data_append, data_append]
    have h1 : ("<DataMashup>" : String).data = tagOpenChars ++ ['>'] := by decide
    rw [h1]
    simp [tagCloseChars, List.append_assoc]
  have hgt : findSplit ['>'] ('>' :: (s.data ++ tagCloseChars)) =
      some ([], s.data ++ tagCloseChars) := by
    have : isPrefixL ['>'] ('>' :: (s.data ++ tagCloseChars)) = true := by
      simp [isPrefixL]
    rw [findSplit_immediate _ _ this]
    rfl
  have hclose : findSplit tagCloseChars (s.data ++ tagCloseChars) = some (s.data, []) := by
    have h1 : tagCloseChars = '<' :: ("/DataMashup>" : String).data := by decide
    rw [h1]
    have h2 : s.data ++ '<' :: ("/DataMashup>" : String).data =
        s.data ++ ('<' :: ("/DataMashup>" : String).data) ++ [] := by simp
    rw [h2, findSplit_mid '<' ("/DataMashup>" : String).data s.data [] h]
  unfold extractDataMashupBinary
  rw [hdata]
  simp only [findSplit_self_append, hgt, hclose]
  rfl

/-! ## Claims C2, C3, C10 -/

/-- Every value `ParseXml` *returns* (as opposed to an exception it throws)
is either `DataMashupNotFound` or a container: the `Base64DecodeError` and
`ParseRootError` branches test the truthiness of a `Buffer` respectively of
`Parser.parse`'s result object, and neither is ever falsy. -/
theorem parseXml_returned_values (K : Codecs) (xml : String) (o : ParseOutcome)
    (h : parseXml K xml = .ok o) :
    o = .err .dataMashupNotFound ∨ ∃ c, o = .ok c := by
  unfold parseXml at h
  cases hE : extractDataMashupBinary xml with
  | none =>
    simp only [hE] at h
    cases h
    exact Or.inl rfl
  | some s =>
    simp only [hE] at h
    by_cases hs : s = ""
    · rw [if_pos hs] at h
      cases h
      exact Or.inl rfl
    · rw [if_neg hs] at h
      cases hd : K.b64dec s with
      | error e => rw [hd] at h; simp [bind, Except.bind] at h
      | ok buf =>
        rw [hd] at h
        simp only [bind, Except.bind, bufferFalsy, Bool.false_eq_true, if_false] at h
        cases hr : parserRoot buf with
        | error e => rw [hr] at h; simp at h
        | ok root =>
          rw [hr] at h
          simp only [parsedObjectFalsy, Bool.false_eq_true, if_false] at h
          cases hm : parserMetadata root.metadata with
          | error e => rw [hm] at h; simp at h
          | ok md =>
            rw [hm] at h
            simp only [pure, Except.pure, Except.ok.injEq] at h
            exact Or.inr ⟨_, h.symm⟩

/-- **C2.** The claim says a `DataMashup` body that is not valid base64
yields the returned value `Base64DecodeError` without throwing. In fact
`base64.toByteArray` throws on such input (here `"abc"`, whose length is not
a multiple of 4), the promise rejects, and the `Base64DecodeError` return is
unreachable for every input because a `Buffer` is never falsy. -/
theorem claim_c2_base64_behavior :
    parseXml jsCodecs "<DataMashup>abc</DataMashup>" =
      .error (.thrown "Invalid string. Length must be a multiple of 4") ∧
    ∀ (K : Codecs) (xml : String), parseXml K xml ≠ .ok (.err .base64DecodeError) := by
  constructor
  · decide
  · intro K xml h
    rcases parseXml_returned_values K xml _ h with h1 | ⟨c, h1⟩ <;> simp at h1

/-- **C3.** The claim says a buffer whose declared `packagePartsLength`
exceeds the remaining bytes yields the returned value `ParseRootError`. In
fact `ParserRoot.parse` throws a `RangeError` (modeled by `rangeError`) on
such input — here the 8-byte buffer `[1,0,0,0,100,0,0,0]` declaring a
100-byte field — the promise rejects, and the `ParseRootError` return is
unreachable for every input because `Parser.parse` never returns a falsy
object. -/
theorem claim_c3_truncated_buffer_behavior :
    parseXml jsCodecs "<DataMashup>AQAAAGQAAAA=</DataMashup>" = .error rangeError ∧
    ∀ (K : Codecs) (xml : String), parseXml K xml ≠ .ok (.err .parseRootError) := by
  constructor
  · decide
  · intro K xml h
    rcases parseXml_returned_values K xml _ h with h1 | ⟨c, h1⟩ <;> simp at h1

/-- **C10.** A `DataMashup` element whose body is empty or whitespace-only
yields `DataMashupNotFound` — the same outcome as a document with no
`DataMashup` element — because the extracted body is trimmed and the empty
string is falsy in the `if (!binaryString)` guard. -/
theorem claim_c10_empty_body (K : Codecs) (s : String)
    (h : ∀ ch ∈ s.data, isJsWhitespace ch = true) :
    parseXml K ("<DataMashup>" ++ s ++ "</DataMashup>") = .ok (.err .dataMashupNotFound) := by
  have hlt : ∀ ch ∈ s.data, ch ≠ '<' := by
    intro ch hch heq
    have hw := h ch hch
    rw [heq] at hw
    exact absurd hw (by decide)
  have htrim : trimStr s = "" := by
    unfold trimStr
    rw [trimL_all_ws s.data h]
  unfold parseXml
  rw [extract_wrapped s hlt, htrim]
  simp

/-- **C10, witness.** The whitespace-only body `" \n "` evaluated with the
demo codec bundle. -/
theorem claim_c10_witness :
    parseXml demoCodecs ("<DataMashup>" ++ " \n " ++ "</DataMashup>") =
      .ok (.err .dataMashupNotFound) :=
  claim_c10_empty_body demoCodecs " \n " (by decide)

end DataMashup

namespace DataMashup

/-! ## Binary layout round-trip lemmas -/

/-- Reading a 4-byte little-endian integer written by `u32le` recovers the
value modulo 2^32 and leaves the rest. -/
theorem readU32_u32le (n : Nat) (rest : Bytes) :
    readU32 (u32le n ++ rest) = .ok (n % 4294967296, rest) := by
  simp only [u32le, List.cons_append, List.nil_append, readU32, Except.ok.injEq, Prod.mk.injEq]
  exact ⟨by omega, trivial⟩

/-- Reading exactly the length of a block recovers it and leaves the rest. -/
theorem readBytesN_exact (b rest : Bytes) :
    readBytesN b.length (b ++ rest) = .ok (b, rest) := by
  unfold readBytesN
  rw [if_pos (by rw [List.length_append]; omega), List.take_left, List.drop_left]

/-- Reading exactly the length of the whole remaining buffer recovers it. -/
theorem readBytesN_all (b : Bytes) : readBytesN b.length b = .ok (b, []) := by
  have := readBytesN_exact b []
  simpa using this

end DataMashup

namespace DataMashup

/-- `parserRoot` applied to the buffer `save` constructs recovers each field
(the version modulo 2^32), provided each field is short enough for its
32-bit length prefix. -/
theorem parserRoot_saveBytes (K : Codecs) (c : Container)
    (h1 : (K.pack (itemsToEntries c.packageParts)).length < 4294967296)
    (h2 : (utf8Encode c.permissions).length < 4294967296)
    (h3 : (metaSaveBytes K c.metadata).length < 4294967296)
    (h4 : c.permissionBindings.length < 4294967296) :
    parserRoot (saveBytes K c) = .ok
      { version := c.version % 4294967296
        packageParts := K.pack (itemsToEntries c.packageParts)
        permissions := utf8Encode c.permissions
        metadata := metaSaveBytes K c.metadata
        permissionBindings := c.permissionBindings.map (· % 256) } := by
  have h4' : (c.permissionBindings.map (· % 256)).length < 4294967296 := by
    rw [List.length_map]
    exact h4
  unfold parserRoot saveBytes
  simp only [lenPrefixed, List.append_assoc]
  simp only [readU32_u32le, bind, Except.bind, Nat.mod_eq_of_lt h1, Nat.mod_eq_of_lt h2,
    Nat.mod_eq_of_lt h3, Nat.mod_eq_of_lt h4', readBytesN_exact, readBytesN_all, pure,
    Except.pure]

/-- `parserMetadata` applied to the metadata buffer `save` constructs
recovers each field (the version modulo 2^32). -/
theorem parserMetadata_metaSaveBytes (K : Codecs) (m : Metadata)
    (h1 : (utf8Encode m.metadata).length < 4294967296)
    (h2 : (K.pack (itemsToEntries m.content)).length < 4294967296) :
    parserMetadata (metaSaveBytes K m) = .ok
      { version := m.version % 4294967296
        metadataXml := utf8Encode m.metadata
        content := K.pack (itemsToEntries m.content) } := by
  unfold parserMetadata metaSaveBytes
  simp only [lenPrefixed, List.append_assoc]
  simp only [readU32_u32le, bind, Except.bind, Nat.mod_eq_of_lt h1, Nat.mod_eq_of_lt h2,
    readBytesN_exact, readBytesN_all, pure, Except.pure]

/-! ## Entry round-trip lemmas -/

/-- Wrapping archive entries into items and projecting them back is the
identity. -/
theorem itemsToEntries_map_mkItem (x : List (String × Bytes)) :
    itemsToEntries (x.map mkItem) = x := by
  unfold itemsToEntries
  rw [List.map_map]
  have h : ((fun i => (i.path, itemBytes i)) ∘ mkItem) = id := by
    funext e
    cases e
    rfl
  rw [h, List.map_id]

/-- One entry surviving the unzip-wrap-normalize step keeps its path and
payload bytes, provided text entries sit at `.xml`/`.m` paths (UTF-8
re-encoding of the decoded text gives back the original bytes by
`utf8_roundtrip`). -/
theorem convert_entry (a : UnzippedItem)
    (hshape : isXmlPath a.path = true → ∃ s, a.data = .text s) :
    ((convertItem (mkItem (a.path, itemBytes a))).path,
      itemBytes (convertItem (mkItem (a.path, itemBytes a)))) = (a.path, itemBytes a) := by
  by_cases hx : isXmlPath a.path
  · obtain ⟨s, hs⟩ := hshape hx
    simp [mkItem, convertItem, hx, itemBytes, hs, utf8_roundtrip]
  · simp [mkItem, convertItem, hx, itemBytes]

/-- Projecting the normalized wrapped entries of a container's own entry
list yields the original entry list again. -/
theorem itemsToEntries_convert (l : List UnzippedItem)
    (hshape : ∀ i ∈ l, isXmlPath i.path = true → ∃ s, i.data = .text s) :
    itemsToEntries (((itemsToEntries l).map mkItem).map convertItem) = itemsToEntries l := by
  induction l with
  | nil => rfl
  | cons a rest ih =>
    have hh := convert_entry a (hshape a (by simp))
    have hr := ih (fun i hi hx => hshape i (by simp [hi]) hx)
    simp only [itemsToEntries, List.map_cons] at hr ⊢
    rw [hh, hr]

/-! ## Inversion of a successful parse -/

/-- A successful `Except` bind factors through a successful first step. -/
theorem except_bind_ok {ε α β : Type} (x : Except ε α) (f : α → Except ε β) (b : β)
    (h : x >>= f = .ok b) : ∃ a, x = .ok a ∧ f a = .ok b := by
  cases x with
  | error e => simp [bind, Except.bind] at h
  | ok a => exact ⟨a, rfl, by simpa [bind, Except.bind] using h⟩

/-- A value read by `uint32le` is below 2^32. -/
theorem readU32_lt (b : Bytes) (v : Nat) (r : Bytes) (h : readU32 b = .ok (v, r)) :
    v < 4294967296 := by
  cases b with
  | nil => simp [readU32] at h
  | cons b0 t0 =>
    cases t0 with
    | nil => simp [readU32] at h
    | cons b1 t1 =>
      cases t1 with
      | nil => simp [readU32] at h
      | cons b2 t2 =>
        cases t2 with
        | nil => simp [readU32] at h
        | cons b3 rest =>
          simp only [readU32, Except.ok.injEq, Prod.mk.injEq] at h
          obtain ⟨hv, -⟩ := h
          omega

/-- A successful declared-length read returns exactly that many bytes. -/
theorem readBytesN_ok_length (n : Nat) (b out rest : Bytes)
    (h : readBytesN n b = .ok (out, rest)) : out.length = n := by
  unfold readBytesN at h
  by_cases hle : n ≤ b.length
  · rw [if_pos hle] at h
    simp only [Except.ok.injEq, Prod.mk.injEq] at h
    obtain ⟨h1, -⟩ := h
    rw [← h1, List.length_take]
    omega
  · rw [if_neg hle] at h
    simp at h

/-- A parsed root's version fits in 32 bits and its permission-bindings
field is as short as its 32-bit length prefix. -/
theorem parserRoot_ok_bounds (b : Bytes) (root : RootData) (h : parserRoot b = .ok root) :
    root.version < 4294967296 ∧ root.permissionBindings.length < 4294967296 := by
  unfold parserRoot at h
  obtain ⟨p1, hp1, h⟩ := except_bind_ok _ _ _ h
  obtain ⟨v, r1⟩ := p1
  obtain ⟨p2, hp2, h⟩ := except_bind_ok _ _ _ h
  obtain ⟨ppl, r2⟩ := p2
  obtain ⟨p3, hp3, h⟩ := except_bind_ok _ _ _ h
  obtain ⟨pp, r3⟩ := p3
  obtain ⟨p4, hp4, h⟩ := except_bind_ok _ _ _ h
  obtain ⟨perml, r4⟩ := p4
  obtain ⟨p5, hp5, h⟩ := except_bind_ok _ _ _ h
  obtain ⟨perm, r5⟩ := p5
  obtain ⟨p6, hp6, h⟩ := except_bind_ok _ _ _ h
  obtain ⟨mdl, r6⟩ := p6
  obtain ⟨p7, hp7, h⟩ := except_bind_ok _ _ _ h
  obtain ⟨md, r7⟩ := p7
  obtain ⟨p8, hp8, h⟩ := except_bind_ok _ _ _ h
  obtain ⟨pbl, r8⟩ := p8
  obtain ⟨p9, hp9, h⟩ := except_bind_ok _ _ _ h
  obtain ⟨pb, r9⟩ := p9
  simp only [pure, Except.pure, Except.ok.injEq] at h
  subst h
  refine ⟨readU32_lt _ _ _ hp1, ?_⟩
  have hlen := readBytesN_ok_length _ _ _ _ hp9
  have hlt := readU32_lt _ _ _ hp8
  simp only []
  omega

/-- A parsed metadata block's version fits in 32 bits. -/
theorem parserMetadata_ok_version_lt (b : Bytes) (md : MetaRaw)
    (h : parserMetadata b = .ok md) : md.version < 4294967296 := by
  unfold parserMetadata at h
  obtain ⟨p1, hp1, h⟩ := except_bind_ok _ _ _ h
  obtain ⟨v, r1⟩ := p1
  obtain ⟨p2, hp2, h⟩ := except_bind_ok _ _ _ h
  obtain ⟨xl, r2⟩ := p2
  obtain ⟨p3, hp3, h⟩ := except_bind_ok _ _ _ h
  obtain ⟨x, r3⟩ := p3
  obtain ⟨p4, hp4, h⟩ := except_bind_ok _ _ _ h
  obtain ⟨cl, r4⟩ := p4
  obtain ⟨p5, hp5, h⟩ := except_bind_ok _ _ _ h
  obtain ⟨ct, r5⟩ := p5
  simp only [pure, Except.pure, Except.ok.injEq] at h
  subst h
  exact readU32_lt _ _ _ hp1

/-- Inversion of a successful `ParseXml`: the resulting container is built
from a successfully parsed root and metadata block in the stated way. -/
theorem parseXml_ok_inversion (K : Codecs) (xml : String) (c : Container)
    (h : parseXml K xml = .ok (.ok c)) :
    ∃ (buf : Bytes) (root : RootData) (md : MetaRaw),
      parserRoot buf = .ok root ∧
      parserMetadata root.metadata = .ok md ∧
      c = { version := root.version
            packageParts := ((K.unpack root.packageParts).map mkItem).map convertItem
            permissions := utf8Decode root.permissions
            metadata := { version := md.version
                          metadata := utf8Decode md.metadataXml
                          content := (K.unpack md.content).map mkItem }
            permissionBindings := root.permissionBindings } := by
  unfold parseXml at h
  cases hE : extractDataMashupBinary xml with
  | none => simp only [hE] at h; simp at h
  | some s =>
    simp only [hE] at h
    by_cases hs : s = ""
    · rw [if_pos hs] at h
      simp at h
    · rw [if_neg hs] at h
      cases hd : K.b64dec s with
      | error e => rw [hd] at h; simp [bind, Except.bind] at h
      | ok buf =>
        rw [hd] at h
        simp only [bind, Except.bind, bufferFalsy, Bool.false_eq_true, if_false] at h
        cases hr : parserRoot buf with
        | error e => rw [hr] at h; simp at h
        | ok root =>
          rw [hr] at h
          simp only [parsedObjectFalsy, Bool.false_eq_true, if_false] at h
          cases hm : parserMetadata root.metadata with
          | error e => rw [hm] at h; simp at h
          | ok md =>
            rw [hm] at h
            simp only [pure, Except.pure, Except.ok.injEq, ParseOutcome.ok.injEq] at h
            exact ⟨buf, root, md, hr, hm, h.symm⟩

/-- Normalized wrapped entries carry text payloads exactly at `.xml`/`.m`
paths. -/
theorem convertItem_mkItem_shape (e : String × Bytes)
    (hx : isXmlPath (convertItem (mkItem e)).path = true) :
    ∃ s, (convertItem (mkItem e)).data = .text s := by
  by_cases hp : isXmlPath e.1
  · exact ⟨utf8Decode e.2, by simp [convertItem, mkItem, hp]⟩
  · exfalso
    apply hp
    have hid : convertItem (mkItem e) = mkItem e := by simp [convertItem, mkItem, hp]
    rw [hid] at hx
    exact hx

/-- Every package-parts entry of a parsed container whose path matches the
`.xml`/`.m` normalization rule holds a text payload. -/
theorem mapped_items_shape (entries : List (String × Bytes)) :
    ∀ i ∈ (entries.map mkItem).map convertItem,
      isXmlPath i.path = true → ∃ s, i.data = .text s := by
  intro i hi hx
  rw [List.map_map] at hi
  simp only [List.mem_map, Function.comp] at hi
  obtain ⟨e, _, rfl⟩ := hi
  exact convertItem_mkItem_shape e hx

end DataMashup

namespace DataMashup

/-- **C1.** For every container obtained from a successful `ParseXml` with no
mutation made, `save()` followed by `ParseXml` (of the saved base64 text
placed back in a `DataMashup` element, as the demo driver does) yields a
container with the same `version`, `permissions`, `metadata.version`,
metadata text, and the same `packageParts` and `metadata.content`
paths-with-payloads. The base64 and ZIP codecs are the external
collaborators of the spec, assumed here to satisfy their interface contract
on this container's data, with each serialized field short enough for its
32-bit length prefix. -/
theorem claim_c1_roundtrip (K : Codecs) (xml0 : String) (c : Container)
    (hParse : parseXml K xml0 = .ok (.ok c))
    (hzip1 : K.unpack (K.pack (itemsToEntries c.packageParts)) = itemsToEntries c.packageParts)
    (hzip2 : K.unpack (K.pack (itemsToEntries c.metadata.content)) =
      itemsToEntries c.metadata.content)
    (hb64 : K.b64dec (K.b64enc (saveBytes K c)) = .ok (saveBytes K c))
    (hchars : ∀ ch ∈ (K.b64enc (saveBytes K c)).data, ch ≠ '<' ∧ isJsWhitespace ch = false)
    (hne : K.b64enc (saveBytes K c) ≠ "")
    (hl1 : (K.pack (itemsToEntries c.packageParts)).length < 4294967296)
    (hl2 : (utf8Encode c.permissions).length < 4294967296)
    (hl3 : (metaSaveBytes K c.metadata).length < 4294967296)
    (hl5 : (utf8Encode c.metadata.metadata).length < 4294967296)
    (hl6 : (K.pack (itemsToEntries c.metadata.content)).length < 4294967296) :
    ∃ c', parseXml K ("<DataMashup>" ++ (saveState K c).1 ++ "</DataMashup>") = .ok (.ok c') ∧
      c'.version = c.version ∧
      c'.permissions = c.permissions ∧
      c'.metadata.version = c.metadata.version ∧
      c'.metadata.metadata = c.metadata.metadata ∧
      itemsToEntries c'.packageParts = itemsToEntries c.packageParts ∧
      itemsToEntries c'.metadata.content = itemsToEntries c.metadata.content := by
  obtain ⟨buf0, root0, md0, hroot0, hmd0, hc⟩ := parseXml_ok_inversion K xml0 c hParse
  have hv1 : c.version < 4294967296 := by
    rw [hc]
    exact (parserRoot_ok_bounds _ _ hroot0).1
  have hl4 : c.permissionBindings.length < 4294967296 := by
    rw [hc]
    exact (parserRoot_ok_bounds _ _ hroot0).2
  have hv2 : c.metadata.version < 4294967296 := by
    rw [hc]
    exact parserMetadata_ok_version_lt _ _ hmd0
  have hshape : ∀ i ∈ c.packageParts, isXmlPath i.path = true → ∃ s, i.data = .text s := by
    rw [hc]
    exact mapped_items_shape _
  have hveq : c.version % 4294967296 = c.version := Nat.mod_eq_of_lt hv1
  have hmveq : c.metadata.version % 4294967296 = c.metadata.version := Nat.mod_eq_of_lt hv2
  have hchars1 : ∀ ch ∈ (K.b64enc (saveBytes K c)).data, ch ≠ '<' :=
    fun ch hch => (hchars ch hch).1
  have hchars2 : ∀ ch ∈ (K.b64enc (saveBytes K c)).data, isJsWhitespace ch = false :=
    fun ch hch => (hchars ch hch).2
  have hExtract := extract_wrapped (K.b64enc (saveBytes K c)) hchars1
  have htrim : trimStr (K.b64enc (saveBytes K c)) = K.b64enc (saveBytes K c) := by
    unfold trimStr
    rw [trimL_of_no_ws _ hchars2]
  have hmain : parseXml K ("<DataMashup>" ++ (saveState K c).1 ++ "</DataMashup>") = .ok (.ok
      { version := c.version
        packageParts :=
          ((K.unpack (K.pack (itemsToEntries c.packageParts))).map mkItem).map convertItem
        permissions := utf8Decode (utf8Encode c.permissions)
        metadata := { version := c.metadata.version
                      metadata := utf8Decode (utf8Encode c.metadata.metadata)
                      content := (K.unpack (K.pack (itemsToEntries c.metadata.content))).map mkItem }
        permissionBindings := c.permissionBindings.map (· % 256) }) := by
    show parseXml K ("<DataMashup>" ++ K.b64enc (saveBytes K c) ++ "</DataMashup>") = _
    unfold parseXml
    simp only [hExtract, htrim, hne, if_false, hb64, bind, Except.bind, bufferFalsy,
      parsedObjectFalsy, Bool.false_eq_true,
      parserRoot_saveBytes K c hl1 hl2 hl3 hl4,
      parserMetadata_metaSaveBytes K c.metadata hl5 hl6, pure, Except.pure, hveq, hmveq]
  refine ⟨_, hmain, rfl, utf8_roundtrip c.permissions, rfl,
    utf8_roundtrip c.metadata.metadata, ?_, ?_⟩
  · show itemsToEntries
        (((K.unpack (K.pack (itemsToEntries c.packageParts))).map mkItem).map convertItem) =
      itemsToEntries c.packageParts
    rw [hzip1]
    exact itemsToEntries_convert c.packageParts hshape
  · show itemsToEntries ((K.unpack (K.pack (itemsToEntries c.metadata.content))).map mkItem) =
      itemsToEntries c.metadata.content
    rw [hzip2]
    exact itemsToEntries_map_mkItem _

end DataMashup

namespace DataMashup

/-- A concrete container with a formula entry, a permissions string, a
metadata block with one binary content entry, and a permission-bindings
blob, used to evaluate the round-trip theorem. -/
def demoContainer : Container :=
  { version := 1
    packageParts := [⟨"a.m", "File", 1, .text "x"⟩]
    permissions := "p"
    metadata := { version := 4, metadata := "m", content := [⟨"b", "File", 1, .bytes [7]⟩] }
    permissionBindings := [9] }

/-- The `DataMashup` XML document whose parse yields `demoContainer` under
the demo codecs. -/
def demoXml : String :=
  "<DataMashup>" ++ (saveState demoCodecs demoContainer).1 ++ "</DataMashup>"

set_option maxRecDepth 4096

/-- **C1, witness.** The round-trip theorem evaluated at `demoContainer`
with the demo codec bundle; every interface hypothesis is checked by
computation. -/
theorem claim_c1_witness :
    ∃ c', parseXml demoCodecs
        ("<DataMashup>" ++ (saveState demoCodecs demoContainer).1 ++ "</DataMashup>") =
        .ok (.ok c') ∧
      c'.version = demoContainer.version ∧
      c'.permissions = demoContainer.permissions ∧
      c'.metadata.version = demoContainer.metadata.version ∧
      c'.metadata.metadata = demoContainer.metadata.metadata ∧
      itemsToEntries c'.packageParts = itemsToEntries demoContainer.packageParts ∧
      itemsToEntries c'.metadata.content = itemsToEntries demoContainer.metadata.content :=
  claim_c1_roundtrip demoCodecs demoXml demoContainer (by decide) (by decide) (by decide)
    (by decide) (by decide) (by decide) (by decide) (by decide) (by decide) (by decide)
    (by decide)

end DataMashup
